import Mathlib

set_option maxRecDepth 8000

/-!
A shallow embedding of the pothole-detection video pipeline of
app/services/video_processor.py, together with proofs of the behavioural
properties stated in the specification.

Conventions of the embedding:
* Python floats are modelled as exact rationals; Python int() truncation
  and round() (banker's rounding) are modelled explicitly (pyTrunc, pyRound).
* The external detection-and-tracking capability (YOLO model.track) is a
  parameter: a function from the raw frame number to the list of result
  batches it returns for that frame.
* The mutable per-job dictionaries (pothole_tracker, confirmed_potholes,
  results_log) become explicit state threaded through folds; the
  defaultdict of deques becomes a total function from track id to the
  stored timestamp list, and confirmed_potholes becomes an association
  list in insertion order (Python dicts preserve insertion order).
* WebSocket messages sent by the worker become an explicit event list;
  writes to processing_status[video_id]["progress"] become an explicit
  list of written progress values.
-/

namespace PotholePipeline

/-- MIN_DETECTION_FRAMES = 3 in video_processor.py. -/
def MIN_DETECTION_FRAMES : ℕ := 3

/-- DETECTION_TIME_WINDOW = 1.0 in video_processor.py. -/
def DETECTION_TIME_WINDOW : ℚ := 1.0

/-- FRAME_STEP = 2 in video_processor.py (process every 2nd frame). -/
def FRAME_STEP : ℕ := 2

/-- MAX_STORED_FRAMES = 1500 in video_processor.py. -/
def MAX_STORED_FRAMES : ℕ := 1500

/-- The per-track history capacity: deque(maxlen=20) in video_processor.py. -/
def TRACK_HISTORY_CAP : ℕ := 20

/-- Python int() applied to a (here: exact rational) float value:
truncation toward zero. -/
def pyTrunc (q : ℚ) : ℤ :=
  if q < 0 then ⌈q⌉ else ⌊q⌋

/-- Python round() to an integer: round half to even. -/
def pyRoundInt (q : ℚ) : ℤ :=
  let f := ⌊q⌋
  let r := q - f
  if r < 1/2 then f
  else if 1/2 < r then f + 1
  else if 2 ∣ f then f else f + 1

/-- Python round(q, digits): the integer rounding of q * 10^digits,
divided by 10^digits. -/
def pyRound (q : ℚ) (digits : ℕ) : ℚ :=
  mkRat (pyRoundInt (q * 10 ^ digits)) (10 ^ digits)

/-- The triple returned by get_adaptive_params.  The source calls the first
field roi_ratio; it is the fraction of the frame height (from the bottom)
scanned by the detector. -/
structure AdaptiveParams where
  roi_fraction : ℚ
  pothole_conf : ℚ
  description : String
  deriving DecidableEq

/-- VideoProcessor.get_adaptive_params: speed band -> ROI fraction,
confidence threshold, description. -/
def get_adaptive_params (speed : ℚ) : AdaptiveParams :=
  if speed < 30 then
    ⟨0.50, 0.35, "Low Speed - Focused ROI"⟩
  else if speed < 60 then
    ⟨0.65, 0.28, "Medium Speed - Moderate ROI"⟩
  else
    ⟨0.75, 0.22, "High Speed - Extended ROI"⟩

/-- One tracked box returned by the detection capability: ROI-relative
integer pixel coordinates (after map(int, box)), a stable track id
(after int(track_id)) and a confidence score. -/
structure TrackedBox where
  x1 : ℤ
  y1 : ℤ
  x2 : ℤ
  y2 : ℤ
  track_id : ℕ
  conf : ℚ
  deriving DecidableEq

/-- One box returned without a stable track id (r.boxes.id is None). -/
structure UntrackedBox where
  x1 : ℤ
  y1 : ℤ
  x2 : ℤ
  y2 : ℤ
  conf : ℚ
  deriving DecidableEq

/-- One result batch r of pothole_model.track: either all boxes carry
track ids or none do. -/
inductive TrackResult where
  | tracked (boxes : List TrackedBox)
  | untracked (boxes : List UntrackedBox)
  deriving DecidableEq

/-- The detection dict built in detect_frame_with_roi and stored in the
frame log (the source field named type always holds "pothole" and is
called dtype here because type is reserved). -/
structure Detection where
  frame_id : ℕ
  pothole_id : Option ℕ
  dtype : String
  confidence : ℚ
  x1 : ℤ
  y1 : ℤ
  x2 : ℤ
  y2 : ℤ
  center_x : ℤ
  center_y : ℤ
  area : ℤ
  deriving DecidableEq

/-- One entry of results_log["frames"] (the source field named roi_ratio
is called roi_fraction here). -/
structure FrameLogEntry where
  frame_id : ℕ
  speed_kmh : ℚ
  roi_fraction : ℚ
  potholes : List Detection
  deriving DecidableEq

/-- The value stored in confirmed_potholes[track_id] at confirmation time. -/
structure PotholeInfo where
  first_seen_frame : ℕ
  first_seen_time : ℚ
  confidence : ℚ
  deriving DecidableEq

/-- The per-job tracker state: pothole_tracker (a defaultdict of
deque(maxlen=20)) and confirmed_potholes (a dict in insertion order).
Both dicts are modelled as association lists; a key absent from the
tracker list stands for the empty deque the defaultdict would create. -/
structure TrackerState where
  tracker : List (ℕ × List ℚ)
  confirmed : List (ℕ × PotholeInfo)
  deriving DecidableEq

/-- The tracker state at the start of a job: both dicts empty. -/
def initTrackerState : TrackerState := ⟨[], []⟩

/-- Reading pothole_tracker[tid]: the stored deque, or the empty deque
the defaultdict creates on first access. -/
def trackerGet (tr : List (ℕ × List ℚ)) (tid : ℕ) : List ℚ :=
  (tr.lookup tid).getD []

/-- Writing back pothole_tracker[tid]: replace the existing entry in
place, or append a first entry for a fresh key. -/
def trackerSet (tr : List (ℕ × List ℚ)) (tid : ℕ) (v : List ℚ) :
    List (ℕ × List ℚ) :=
  if (tr.lookup tid).isSome then
    tr.map fun p => if p.1 = tid then (tid, v) else p
  else tr ++ [(tid, v)]

/-- Appending to a deque(maxlen=20): once the deque is at capacity the
oldest (leftmost) entry is dropped. -/
def dequePush (hist : List ℚ) (t : ℚ) : List ℚ :=
  if hist.length < TRACK_HISTORY_CAP then hist ++ [t] else hist.drop 1 ++ [t]

/-- recent_detections: stored timestamps x with t - x <= DETECTION_TIME_WINDOW. -/
def recentOf (hist : List ℚ) (t : ℚ) : List ℚ :=
  hist.filter fun x => decide (t - x ≤ DETECTION_TIME_WINDOW)

/-- The tracking/confirmation step performed for one tracked box in
detect_frame_with_roi: append the current time to the track's history,
recompute the recent count, and create the track's confirmed_potholes
record if the count reaches MIN_DETECTION_FRAMES and the id is not
already confirmed.  Returns the new state and whether the track was
newly confirmed by this observation. -/
def observeTrack (s : TrackerState) (tid : ℕ) (frame_id : ℕ) (t : ℚ) (conf : ℚ) :
    TrackerState × Bool :=
  let hist := dequePush (trackerGet s.tracker tid) t
  let is_confirmed : Bool := decide (MIN_DETECTION_FRAMES ≤ (recentOf hist t).length)
  let newly : Bool := is_confirmed && !(s.confirmed.lookup tid).isSome
  let confirmed :=
    if newly then s.confirmed ++ [(tid, ⟨frame_id, t, conf⟩)] else s.confirmed
  (⟨trackerSet s.tracker tid hist, confirmed⟩, newly)

/-- The accumulator of the per-box loops of detect_frame_with_roi:
tracker state, pothole_detections, current_frame_potholes,
new_potholes_count. -/
abbrev FrameAcc := TrackerState × List Detection × ℕ × ℕ

/-- The body of the tracked-boxes loop of detect_frame_with_roi:
observe the track, and if (afterwards) the track id is in
confirmed_potholes, count the detection and store it with full-frame
pixel coordinates; new_potholes_count is assigned 1 on a new
confirmation. -/
def processTrackedBox (frame_id : ℕ) (t : ℚ) (roi_y_start : ℤ)
    (acc : FrameAcc) (b : TrackedBox) : FrameAcc :=
  let y1_full := b.y1 + roi_y_start
  let y2_full := b.y2 + roi_y_start
  let o := observeTrack acc.1 b.track_id frame_id t b.conf
  let s := o.1
  let newc := if o.2 then 1 else acc.2.2.2
  if (s.confirmed.lookup b.track_id).isSome then
    (s,
     acc.2.1 ++ [{ frame_id := frame_id, pothole_id := some b.track_id,
                   dtype := "pothole",
                   confidence := pyRound b.conf 3,
                   x1 := b.x1, y1 := y1_full, x2 := b.x2, y2 := y2_full,
                   center_x := pyTrunc (((b.x1 + b.x2 : ℤ) : ℚ) / 2),
                   center_y := pyTrunc (((y1_full + y2_full : ℤ) : ℚ) / 2),
                   area := (b.x2 - b.x1) * (y2_full - y1_full) }],
     acc.2.2.1 + 1, newc)
  else
    (s, acc.2.1, acc.2.2.1, newc)

/-- The body of the untracked-boxes loop of detect_frame_with_roi: the
count is incremented unconditionally, a detection dict is built in the
source but its append to pothole_detections is commented out, so
nothing is stored and the tracker state is untouched. -/
def processUntrackedBox (acc : FrameAcc) (_b : UntrackedBox) : FrameAcc :=
  (acc.1, acc.2.1, acc.2.2.1 + 1, acc.2.2.2)

/-- Processing of one result batch r of pothole_model.track. -/
def processBatch (frame_id : ℕ) (t : ℚ) (roi_y_start : ℤ)
    (acc : FrameAcc) (r : TrackResult) : FrameAcc :=
  match r with
  | .tracked boxes => boxes.foldl (processTrackedBox frame_id t roi_y_start) acc
  | .untracked boxes => boxes.foldl processUntrackedBox acc

/-- Appending one entry to results_log["frames"]: append, then pop the
oldest entry if the log exceeds MAX_STORED_FRAMES. -/
def appendFrameLog (log : List FrameLogEntry) (e : FrameLogEntry) :
    List FrameLogEntry :=
  let l := log ++ [e]
  if MAX_STORED_FRAMES < l.length then l.drop 1 else l

/-- VideoProcessor.detect_frame_with_roi: adaptive params from the
speed, ROI boundary from the frame height, per-box tracking and
confirmation, and the frame-log append when the frame produced at least
one stored (confirmed) detection.  Returns the new tracker state, the
new frame log, current_frame_potholes and new_potholes_count. -/
def detect_frame_with_roi (frame_h : ℕ) (speed_kmh : ℚ) (frame_id : ℕ) (t : ℚ)
    (results : List TrackResult) (s : TrackerState) (log : List FrameLogEntry) :
    TrackerState × List FrameLogEntry × ℕ × ℕ :=
  let params := get_adaptive_params speed_kmh
  let roi_y_start := pyTrunc ((frame_h : ℚ) * (1 - params.roi_fraction))
  let acc := results.foldl (processBatch frame_id t roi_y_start) (s, [], 0, 0)
  let log' :=
    if acc.2.1.isEmpty then log
    else appendFrameLog log ⟨frame_id, speed_kmh, params.roi_fraction, acc.2.1⟩
  (acc.1, log', acc.2.2.1, acc.2.2.2)

/-- The record appended to pothole_list for one confirmed_potholes entry. -/
structure PotholeRecord where
  pothole_id : ℕ
  first_detected_frame : ℕ
  first_detected_time : ℚ
  confidence : ℚ
  deriving DecidableEq

/-- Conversion of one confirmed_potholes item to its pothole_list record. -/
def potholeRecordOf (p : ℕ × PotholeInfo) : PotholeRecord :=
  { pothole_id := p.1
    first_detected_frame := p.2.first_seen_frame
    first_detected_time := pyRound p.2.first_seen_time 2
    confidence := pyRound p.2.confidence 3 }

/-- pothole_list construction in _process_video_blocking: one record per
confirmed_potholes entry, then sort by first_detected_frame (Python
list.sort is a stable mergesort). -/
def buildPotholeList (confirmed : List (ℕ × PotholeInfo)) : List PotholeRecord :=
  (confirmed.map potholeRecordOf).mergeSort
    fun a b => decide (a.first_detected_frame ≤ b.first_detected_frame)

/-- results_log["summary"] of a completed run. -/
structure Summary where
  total_frames : ℕ
  processed_frames : ℕ
  frame_step : ℕ
  unique_potholes : ℕ
  total_detections : ℕ
  frames_with_detections : ℕ
  detection_rate : ℚ
  deriving DecidableEq

/-- The video_info block of the final results dict. -/
structure VideoInfo where
  total_frames : ℕ
  fps : ℚ
  duration : ℚ
  width : ℕ
  height : ℕ
  resolution : String
  deriving DecidableEq

/-- The final results dict of one job (the processed_at timestamp and
the echoed video_path are omitted: wall-clock time and file paths are
outside the model). -/
structure Report where
  video_id : String
  speed_kmh : ℚ
  video_info : VideoInfo
  summary : Summary
  pothole_list : List PotholeRecord
  frames : List FrameLogEntry
  deriving DecidableEq

/-- A WebSocket message sent by the worker for one job. -/
inductive WsEvent where
  | statusMsg (status : String) (progress : ℤ) (message : String)
  | progress (progress : ℤ) (message : String) (unique_potholes : ℕ)
      (total_detections : ℕ)
  | complete (status : String) (progress : ℤ) (message : String) (summary : Summary)
  | error (status : String) (message : String)
  deriving DecidableEq

/-- The progress field carried by an event (the error event has none). -/
def eventProgress : WsEvent → Option ℤ
  | .statusMsg _ p _ => some p
  | .progress p _ _ _ => some p
  | .complete _ p _ _ => some p
  | .error _ _ => none

/-- The sequence of progress values carried by an event list. -/
def progressValues (evs : List WsEvent) : List ℤ :=
  evs.filterMap eventProgress

/-- A successfully opened video source: its metadata and, standing for
the external detection-and-tracking capability, the batches the model
returns for each raw frame number. -/
structure Video where
  total_frames : ℕ
  fps : ℚ
  width : ℕ
  height : ℕ
  detector : ℕ → List TrackResult

/-- The loop state of the frame loop of _process_video_blocking. -/
structure LoopState where
  ts : TrackerState
  frames_log : List FrameLogEntry
  total_detections : ℕ
  processed_frame_count : ℕ
  last_progress : ℤ
  events : List WsEvent
  status_writes : List ℤ
  deriving DecidableEq

/-- The progress message for one emitted progress update. -/
def progressMessage (fc tf pf : ℕ) : String :=
  s!"Frame {fc}/{tf} ({pf} processed)"

/-- current_progress in _process_video_blocking: based on processed
frames over expected processed frames, scaled to 5..100. -/
def progAt (tf pf : ℕ) : ℤ :=
  pyTrunc ((pf : ℚ) / ((tf : ℚ) / (FRAME_STEP : ℚ)) * 95) + 5

/-- One iteration of the frame loop of _process_video_blocking, for the
raw frame of index idx (0-based; frame_count = idx + 1): skip frames
whose 1-based number is not divisible by FRAME_STEP, otherwise run
detect_frame_with_roi, accumulate total_detections, and emit a progress
update (status write + progress event) when current_progress has
advanced by at least 5 since the last emission. -/
def stepFrame (vid : Video) (speed_kmh : ℚ) (s : LoopState) (idx : ℕ) : LoopState :=
  let frame_count := idx + 1
  if frame_count % FRAME_STEP ≠ 0 then s
  else
    let processed := s.processed_frame_count + 1
    let current_time : ℚ := if 0 < vid.fps then (frame_count : ℚ) / vid.fps else 0
    let d := detect_frame_with_roi vid.height speed_kmh frame_count current_time
      (vid.detector frame_count) s.ts s.frames_log
    let total := s.total_detections + d.2.2.1
    let current_progress := progAt vid.total_frames processed
    if 5 ≤ current_progress - s.last_progress then
      { ts := d.1, frames_log := d.2.1, total_detections := total,
        processed_frame_count := processed, last_progress := current_progress,
        events := s.events ++
          [.progress current_progress
            (progressMessage frame_count vid.total_frames processed)
            d.1.confirmed.length total],
        status_writes := s.status_writes ++ [current_progress] }
    else
      { ts := d.1, frames_log := d.2.1, total_detections := total,
        processed_frame_count := processed, last_progress := s.last_progress,
        events := s.events, status_writes := s.status_writes }

/-- The observable outcome of one job: final status entry, the results
dict written to detection_results and the results file (none if the run
failed), the WebSocket events sent, and the progress values written to
the job's processing_status entry. -/
structure RunResult where
  status : String
  progress : ℤ
  message : String
  report : Option Report
  events : List WsEvent
  status_writes : List ℤ

/-- The initial loop state of a successfully opened video: the two
status events (progress 0 before the open, progress 5 after) have been
sent and the wrapper has written progress 0 to processing_status. -/
def initLoopState (ev1 : List WsEvent) : LoopState :=
  { ts := initTrackerState, frames_log := [], total_detections := 0,
    processed_frame_count := 0, last_progress := 0,
    events := ev1, status_writes := [0] }

/-- The aggregation tail of _process_video_blocking, applied to the
final loop state fin of a successful run: build pothole_list (sorted by
first detected frame), the summary and the results dict, store the
results, write the completed status (progress 100) and send the final
complete event. -/
def successResult (vid : Video) (video_id : String) (speed_kmh : ℚ)
    (fin : LoopState) : RunResult :=
  let pothole_list := buildPotholeList fin.ts.confirmed
  let summary : Summary :=
    { total_frames := vid.total_frames
      processed_frames := fin.processed_frame_count
      frame_step := FRAME_STEP
      unique_potholes := fin.ts.confirmed.length
      total_detections := fin.total_detections
      frames_with_detections := fin.frames_log.length
      detection_rate :=
        if 0 < fin.processed_frame_count then
          pyRound ((fin.frames_log.length : ℚ) / fin.processed_frame_count * 100) 2
        else 0 }
  let report : Report :=
    { video_id := video_id, speed_kmh := speed_kmh
      video_info :=
        { total_frames := vid.total_frames
          fps := pyRound vid.fps 2
          duration := if 0 < vid.fps then
              pyRound ((vid.total_frames : ℚ) / vid.fps) 2
            else 0
          width := vid.width, height := vid.height
          resolution := s!"{vid.width}x{vid.height}" }
      summary := summary
      pothole_list := pothole_list
      frames := fin.frames_log }
  { status := "completed", progress := 100,
    message := "Processing completed successfully",
    report := some report,
    events := fin.events ++
      [.complete "completed" 100 "Processing completed successfully" summary],
    status_writes := fin.status_writes ++ [100] }

/-- process_video + _process_video_blocking for one job, with the video
source as a parameter (none = cv2.VideoCapture could not open the
source).  On failure the job status becomes error, no results dict is
produced, and an error event is sent.  On success the loop runs over
every raw frame and the run is finished by successResult. -/
def process_video_blocking (cap : Option Video) (video_id : String)
    (speed_kmh : ℚ) : RunResult :=
  let ev0 : List WsEvent := [.statusMsg "processing" 0 "Loading model..."]
  match cap with
  | none =>
      { status := "error", progress := 0,
        message := "Error: Could not open video",
        report := none,
        events := ev0 ++ [.error "error" "Processing failed: Could not open video"],
        status_writes := [0, 0] }
  | some vid =>
      let ev1 := ev0 ++
        [.statusMsg "processing" 5
          s!"Model loaded, processing every {FRAME_STEP}th frame..."]
      let fin := (List.range vid.total_frames).foldl (stepFrame vid speed_kmh)
        (initLoopState ev1)
      successResult vid video_id speed_kmh fin

/-- VideoProcessor.get_results, as a function of what the in-memory map
and the durable results file hold for the queried id: memory first,
then the file, else a not-found error. -/
def get_results (memory : Option Report) (file_store : Option Report) :
    Except String Report :=
  match memory with
  | some r => .ok r
  | none =>
      match file_store with
      | some r => .ok r
      | none => .error "Results not found. Video may still be processing."



/-- Folding a sequence of observe calls (track id, frame index,
timestamp, confidence) of the Track Confirmation Engine over the
tracker state. -/
def runObserves (obs : List (ℕ × ℕ × ℚ × ℚ)) (s : TrackerState) : TrackerState :=
  obs.foldl (fun s o => (observeTrack s o.1 o.2.1 o.2.2.1 o.2.2.2).1) s

/-- Observe calls on one fixed track id, each given by frame index,
timestamp and confidence. -/
def runObservesOn (tid : ℕ) (obs : List (ℕ × ℚ × ℚ)) (s : TrackerState) : TrackerState :=
  obs.foldl (fun s o => (observeTrack s tid o.1 o.2.1 o.2.2).1) s

/-- The invariant of the frame loop used for the progress claims:
progress values sent so far and status progress values written so far
are non-decreasing and bounded by the larger of 5 and last_progress,
last_progress is non-negative and bounded by the progress value of the
current processed-frame count. -/
def LoopInv (tf : ℕ) (s : LoopState) : Prop :=
  (progressValues s.events).Chain' (· ≤ ·)
  ∧ (∀ x ∈ progressValues s.events, x ≤ max 5 s.last_progress)
  ∧ s.status_writes.Chain' (· ≤ ·)
  ∧ (∀ x ∈ s.status_writes, x ≤ max 5 s.last_progress)
  ∧ 0 ≤ s.last_progress
  ∧ s.last_progress ≤ progAt tf s.processed_frame_count

/-- The single-track view of the confirmation engine: the stored
timestamp deque of one track id and whether that id is in
confirmed_potholes.  One step appends the timestamp and ors in the
confirmation test of observeTrack. -/
def trackStep (s : List ℚ × Bool) (t : ℚ) : List ℚ × Bool :=
  (dequePush s.1 t,
   s.2 || decide (MIN_DETECTION_FRAMES ≤ (recentOf (dequePush s.1 t) t).length))

/-- Running the single-track view from an empty history. -/
def runTrack (ts : List ℚ) : List ℚ × Bool := ts.foldl trackStep ([], false)

/-! ### Scenario inputs used by concrete theorems -/

/-- The box the C3 detector stub reports (ROI-relative coordinates). -/
def c3box : TrackedBox := ⟨0, 0, 10, 10, 7, 0.5⟩

/-- The C3 scenario video: 300 frames at 30 fps with a stub detector
that reports track id 7 with confidence 0.5 in every frame from frame
30 onward. -/
def c3video : Video :=
  { total_frames := 300, fps := 30, width := 640, height := 480,
    detector := fun fc => if 30 ≤ fc then [.tracked [c3box]] else [] }

/-- The two status events sent before the frame loop starts. -/
def c3ev1 : List WsEvent :=
  [WsEvent.statusMsg "processing" 0 "Loading model..."] ++
   [.statusMsg "processing" 5 s!"Model loaded, processing every {FRAME_STEP}th frame..."]

/-- The loop state of the C3 scenario after the first n raw frames. -/
def c3run (n : ℕ) : LoopState :=
  (List.range n).foldl (stepFrame c3video 40) (initLoopState c3ev1)

/-- The confirmed record of the C3 scenario: track 7, first seen at
frame 34 (time 34/30), with the stub's confidence. -/
def c3info : PotholeInfo := ⟨34, mkRat 17 15, mkRat 1 2⟩

/-- A small witness video: 6 frames at 10 fps, the detector always
reporting track id 5, so that the three sampled frames (2, 4, 6) at
times 0.2, 0.4, 0.6 confirm the track at frame 6. -/
def wvid : Video :=
  ⟨6, 10, 100, 100, fun _ => [.tracked [⟨0, 0, 10, 10, 5, mkRat 1 2⟩]]⟩

/-! ### Generic preservation lemmas for the confirmation engine -/

/-- A key found in the left part of an association list is still found,
with the same value, after appending entries on the right. -/
lemma lookup_append_some {α : Type} {l₁ : List (ℕ × α)} (l₂ : List (ℕ × α))
    {k : ℕ} {v : α} (h : l₁.lookup k = some v) :
    (l₁ ++ l₂).lookup k = some v := by
  induction l₁ with
  | nil => simp [List.lookup] at h
  | cons a l ih =>
      rw [List.cons_append, List.lookup]
      rw [List.lookup] at h
      cases hk : (k == a.1) with
      | true => simpa [hk] using h
      | false => exact ih (by simpa [hk] using h)

/-- observeTrack never removes or overwrites an existing
confirmed_potholes record. -/
lemma observeTrack_lookup_some (s : TrackerState) (tid frame : ℕ) (t conf : ℚ)
    {k : ℕ} {v : PotholeInfo} (h : s.confirmed.lookup k = some v) :
    ((observeTrack s tid frame t conf).1.confirmed.lookup k) = some v := by
  unfold observeTrack
  dsimp only
  split
  · exact lookup_append_some _ h
  · exact h

/-- If the observed track is already confirmed, observeTrack leaves
confirmed_potholes unchanged. -/
lemma observeTrack_confirmed_of_mem (s : TrackerState) (tid frame : ℕ) (t conf : ℚ)
    (h : (s.confirmed.lookup tid).isSome = true) :
    (observeTrack s tid frame t conf).1.confirmed = s.confirmed := by
  unfold observeTrack
  simp [h]

/-- The tracker-state component returned by processTrackedBox is the
one produced by its observeTrack call. -/
lemma processTrackedBox_fst (frame_id : ℕ) (t : ℚ) (roi : ℤ)
    (acc : FrameAcc) (b : TrackedBox) :
    (processTrackedBox frame_id t roi acc b).1
      = (observeTrack acc.1 b.track_id frame_id t b.conf).1 := by
  unfold processTrackedBox
  dsimp only
  split <;> rfl

/-! ### Evaluation of the C3 scenario -/

/-- Advancing the C3 loop by one frame. -/
lemma c3run_succ (n : ℕ) :
    c3run (n + 1) = stepFrame c3video 40 (c3run n) n := by
  unfold c3run
  rw [List.range_succ, List.foldl_append]
  rfl

/-- After 32 raw frames nothing is confirmed yet: only two sampled
frames (30 and 32) have seen track 7. -/
lemma c3confirmed32 : (c3run 32).ts.confirmed = [] := by
  with_unfolding_all decide

/-- After 40 raw frames exactly track 7 is confirmed, created at
frame 34. -/
lemma c3confirmed40 : (c3run 40).ts.confirmed = [(7, c3info)] := by
  with_unfolding_all decide

/-- Once track 7 is confirmed, a C3 frame step leaves the confirmed map
unchanged: the stub reports either nothing or track 7 only. -/
lemma c3step_confirmed (idx : ℕ) (s : LoopState)
    (hmem : (s.ts.confirmed.lookup 7).isSome = true) :
    (stepFrame c3video 40 s idx).ts.confirmed = s.ts.confirmed := by
  have hdet : ∀ fc t log,
      (detect_frame_with_roi c3video.height 40 fc t (c3video.detector fc)
        s.ts log).1.confirmed = s.ts.confirmed := by
    intro fc t log
    show (detect_frame_with_roi c3video.height 40 fc t
      (if 30 ≤ fc then [.tracked [c3box]] else []) s.ts log).1.confirmed
        = s.ts.confirmed
    by_cases h30 : 30 ≤ fc
    · rw [if_pos h30]
      unfold detect_frame_with_roi
      dsimp only
      rw [show ([TrackResult.tracked [c3box]].foldl
        (processBatch fc t (pyTrunc ((c3video.height : ℚ)
          * (1 - (get_adaptive_params 40).roi_fraction)))) (s.ts, [], 0, 0))
        = processTrackedBox fc t (pyTrunc ((c3video.height : ℚ)
          * (1 - (get_adaptive_params 40).roi_fraction))) (s.ts, [], 0, 0) c3box
        from rfl]
      rw [processTrackedBox_fst]
      exact observeTrack_confirmed_of_mem _ _ _ _ _ hmem
    · rw [if_neg h30]
      rfl
  unfold stepFrame
  dsimp only
  split
  · rfl
  · split
    · exact hdet _ _ s.frames_log
    · exact hdet _ _ s.frames_log

/-- From frame 40 on the confirmed map never changes. -/
lemma c3confirmed_from40 (k : ℕ) :
    (c3run (40 + k)).ts.confirmed = [(7, c3info)] := by
  induction k with
  | zero => exact c3confirmed40
  | succ k ih =>
      rw [show 40 + (k + 1) = (40 + k) + 1 from rfl, c3run_succ]
      rw [c3step_confirmed _ _ (by rw [ih]; rfl)]
      exact ih

/-- The final confirmed map of the C3 run. -/
lemma c3confirmed300 : (c3run 300).ts.confirmed = [(7, c3info)] :=
  c3confirmed_from40 260

/-- The C3 run, reduced to the aggregation of its final loop state. -/
lemma c3result :
    process_video_blocking (some c3video) "c3" 40
      = successResult c3video "c3" 40 (c3run 300) :=
  rfl


/-! ### Claim theorems -/

/-- C3 counterexample: in the specified scenario the pothole is NOT
confirmed at frame 32 (after frame 32 nothing is confirmed yet, because
the stub's hits land on the sampled frames 30, 32, 34, ...); the
report records first_detected_frame = 34. -/
theorem C3_counterexample :
    (c3run 32).ts.confirmed = []
    ∧ ((process_video_blocking (some c3video) "c3" 40).report.map
        (fun r => r.pothole_list.map fun p => (p.pothole_id, p.first_detected_frame)))
        = some [(7, 34)]
    ∧ (34 : ℕ) ≠ 32 := by
  refine ⟨c3confirmed32, ?_, by decide⟩
  rw [c3result]
  simp only [successResult, Option.map_some']
  rw [c3confirmed300]
  with_unfolding_all decide

/-- C3 (amended): the scenario uses ROI fraction 0.65 and confidence
threshold 0.28, confirms pothole 7 at frame 34 (the first sampled frame
at which at least 3 recent hits exist, the hits landing on the sampled
frames 30, 32, 34), and yields a final summary with unique_potholes = 1
and a complete event carrying that summary. -/
theorem C3_amended_thm :
    get_adaptive_params 40 = ⟨0.65, 0.28, "Medium Speed - Moderate ROI"⟩
    ∧ ∃ rep : Report,
        (process_video_blocking (some c3video) "c3" 40).report = some rep
        ∧ rep.summary.unique_potholes = 1
        ∧ rep.pothole_list.map (fun p => (p.pothole_id, p.first_detected_frame))
            = [(7, 34)]
        ∧ (process_video_blocking (some c3video) "c3" 40).events.getLast?
            = some (.complete "completed" 100 "Processing completed successfully"
                rep.summary) := by
  constructor
  · norm_num [get_adaptive_params]
  · rw [c3result]
    simp only [successResult]
    refine ⟨_, rfl, ?_, ?_, ?_⟩
    · show (c3run 300).ts.confirmed.length = 1
      rw [c3confirmed300]
      rfl
    · show (buildPotholeList (c3run 300).ts.confirmed).map _ = _
      rw [c3confirmed300]
      with_unfolding_all decide
    · rw [List.getLast?_concat]

/-- C4: get_adaptive_params is a pure total function of the speed that
returns exactly one of three fixed parameter sets, with bands
speed < 30, 30 <= speed < 60 and 60 <= speed. -/
theorem C4_adaptive_params (speed : ℚ) :
    (speed < 30 →
      get_adaptive_params speed = ⟨0.50, 0.35, "Low Speed - Focused ROI"⟩)
    ∧ (30 ≤ speed → speed < 60 →
      get_adaptive_params speed = ⟨0.65, 0.28, "Medium Speed - Moderate ROI"⟩)
    ∧ (60 ≤ speed →
      get_adaptive_params speed = ⟨0.75, 0.22, "High Speed - Extended ROI"⟩) := by
  unfold get_adaptive_params
  refine ⟨fun h => by rw [if_pos h], fun h1 h2 => ?_, fun h => ?_⟩
  · rw [if_neg (by linarith), if_pos h2]
  · rw [if_neg (by linarith), if_neg (by linarith)]

/-- C4 witness: the boundary speeds 30 and 60 select the middle and
high band respectively. -/
theorem C4_witness :
    get_adaptive_params 30 = ⟨0.65, 0.28, "Medium Speed - Moderate ROI"⟩
    ∧ get_adaptive_params 60 = ⟨0.75, 0.22, "High Speed - Extended ROI"⟩ :=
  ⟨(C4_adaptive_params 30).2.1 le_rfl (by norm_num),
   (C4_adaptive_params 60).2.2 le_rfl⟩

/-- C5: appending to the frame log keeps it within MAX_STORED_FRAMES;
at capacity exactly the oldest entry is evicted (FIFO) and the rest are
unchanged, below capacity the entry is appended unchanged. -/
theorem C5_frame_log_bound (log : List FrameLogEntry) (e : FrameLogEntry)
    (h : log.length ≤ MAX_STORED_FRAMES) :
    (appendFrameLog log e).length ≤ MAX_STORED_FRAMES
    ∧ (log.length = MAX_STORED_FRAMES → appendFrameLog log e = log.drop 1 ++ [e])
    ∧ (log.length < MAX_STORED_FRAMES → appendFrameLog log e = log ++ [e]) := by
  have hM : MAX_STORED_FRAMES = 1500 := rfl
  unfold appendFrameLog
  dsimp only
  refine ⟨?_, fun hcap => ?_, fun hlt => ?_⟩
  · split
    · rename_i hgt
      rw [List.length_drop]
      simp only [List.length_append, List.length_cons, List.length_nil] at hgt ⊢
      omega
    · rename_i hle
      simp only [List.length_append, List.length_cons, List.length_nil,
        Nat.not_lt] at hle ⊢
      omega
  · rw [if_pos (by simp only [List.length_append, List.length_cons,
      List.length_nil]; omega)]
    rw [List.drop_append_of_le_length (by omega)]
  · rw [if_neg (by simp only [List.length_append, List.length_cons,
      List.length_nil]; omega)]

/-- C5 witness: appending to a frame log at capacity evicts exactly the
oldest entry. -/
theorem C5_witness :
    (appendFrameLog (List.replicate MAX_STORED_FRAMES
        (⟨0, 0, 0, []⟩ : FrameLogEntry)) ⟨1, 0, 0, []⟩).length ≤ MAX_STORED_FRAMES
    ∧ appendFrameLog (List.replicate MAX_STORED_FRAMES
        (⟨0, 0, 0, []⟩ : FrameLogEntry)) ⟨1, 0, 0, []⟩
      = (List.replicate MAX_STORED_FRAMES (⟨0, 0, 0, []⟩ : FrameLogEntry)).drop 1
          ++ [⟨1, 0, 0, []⟩] :=
  ⟨(C5_frame_log_bound _ _ (by simp)).1,
   (C5_frame_log_bound _ _ (by simp)).2.1 (by simp)⟩

/-- C7: once a ConfirmedPothole record exists for a track id, no later
sequence of observe calls (on any track ids) modifies its fields or
removes it from the confirmed map. -/
theorem C7_confirmed_immutable (obs : List (ℕ × ℕ × ℚ × ℚ)) (s : TrackerState)
    (tid : ℕ) (info : PotholeInfo) (h : s.confirmed.lookup tid = some info) :
    (runObserves obs s).confirmed.lookup tid = some info := by
  induction obs generalizing s with
  | nil => exact h
  | cons o rest ih =>
      show (runObserves rest ((observeTrack s o.1 o.2.1 o.2.2.1 o.2.2.2).1)).confirmed.lookup tid
        = some info
      exact ih _ (observeTrack_lookup_some _ _ _ _ _ h)

/-- C7 witness: a later observe call on the same track id leaves the
existing record untouched. -/
theorem C7_witness :
    (runObserves [(3, 2, 1, 1)]
      ⟨[], [(3, ⟨1, 0, 1⟩)]⟩).confirmed.lookup 3 = some ⟨1, 0, 1⟩ :=
  C7_confirmed_immutable _ _ _ _ rfl

/-- C9: if the video source cannot be opened the job status becomes
error with a descriptive message, no results dict is produced (so a
results query on empty stores reports not-found), and the last event
sent to the live listener is the error event. -/
theorem C9_open_failure (video_id : String) (speed : ℚ) :
    (process_video_blocking none video_id speed).status = "error"
    ∧ (process_video_blocking none video_id speed).message
        = "Error: Could not open video"
    ∧ (process_video_blocking none video_id speed).report = none
    ∧ (process_video_blocking none video_id speed).events.getLast?
        = some (.error "error" "Processing failed: Could not open video")
    ∧ get_results none none
        = .error "Results not found. Video may still be processing." :=
  ⟨rfl, rfl, rfl, rfl, rfl⟩


/-- observeTrack keeps every already-confirmed track id confirmed. -/
lemma observeTrack_isSome (s : TrackerState) (tid frame : ℕ) (t conf : ℚ)
    {k : ℕ} (h : (s.confirmed.lookup k).isSome = true) :
    ((observeTrack s tid frame t conf).1.confirmed.lookup k).isSome = true := by
  obtain ⟨v, hv⟩ := Option.isSome_iff_exists.mp h
  rw [observeTrack_lookup_some _ _ _ _ _ hv]
  rfl

/-- A fold preserves any invariant its step preserves. -/
lemma foldl_preserve {α β : Type} {P : α → Prop} {f : α → β → α}
    (hstep : ∀ s b, P s → P (f s b)) :
    ∀ (l : List β) (s : α), P s → P (l.foldl f s)
  | [], _, hs => hs
  | b :: l, s, hs => foldl_preserve hstep l (f s b) (hstep s b hs)

/-- The invariant of the per-box loops: every stored detection carries
a track id that is confirmed in the current tracker state. -/
def DetInv (acc : FrameAcc) : Prop :=
  ∀ d ∈ acc.2.1, ∃ tid, d.pothole_id = some tid
    ∧ (acc.1.confirmed.lookup tid).isSome = true

lemma processTrackedBox_inv (frame_id : ℕ) (t : ℚ) (roi : ℤ)
    (acc : FrameAcc) (b : TrackedBox) (h : DetInv acc) :
    DetInv (processTrackedBox frame_id t roi acc b) := by
  unfold processTrackedBox
  dsimp only
  split
  · rename_i hmem
    intro d hd
    rw [List.mem_append] at hd
    rcases hd with hd | hd
    · obtain ⟨tid, h1, h2⟩ := h d hd
      exact ⟨tid, h1, observeTrack_isSome _ _ _ _ _ h2⟩
    · rw [List.mem_singleton] at hd
      subst hd
      exact ⟨b.track_id, rfl, hmem⟩
  · intro d hd
    obtain ⟨tid, h1, h2⟩ := h d hd
    exact ⟨tid, h1, observeTrack_isSome _ _ _ _ _ h2⟩

lemma processBatch_inv (frame_id : ℕ) (t : ℚ) (roi : ℤ)
    (acc : FrameAcc) (r : TrackResult) (h : DetInv acc) :
    DetInv (processBatch frame_id t roi acc r) := by
  unfold processBatch
  cases r with
  | tracked boxes =>
      exact foldl_preserve (fun s b hs => processTrackedBox_inv frame_id t roi s b hs)
        boxes acc h
  | untracked boxes =>
      refine foldl_preserve (fun s b hs => ?_) boxes acc h
      intro d hd
      exact hs d hd

/-- Membership in the frame log after an append: an old entry or the
appended one. -/
lemma mem_appendFrameLog {log : List FrameLogEntry} {x e : FrameLogEntry}
    (h : e ∈ appendFrameLog log x) : e ∈ log ∨ e = x := by
  unfold appendFrameLog at h
  dsimp only at h
  split at h
  · have h2 := List.mem_of_mem_drop h
    simpa using h2
  · simpa using h

/-- C8: every frame-log entry produced by detect_frame_with_roi is an
old entry or the newly appended one, and every detection stored in the
newly appended entry carries a track id that is in the confirmed map at
the moment the entry is appended; detections without a stable track id
are never retained. -/
theorem C8_frame_log (frame_h : ℕ) (speed : ℚ) (frame_id : ℕ) (t : ℚ)
    (results : List TrackResult) (s : TrackerState) (log : List FrameLogEntry) :
    ∀ e ∈ (detect_frame_with_roi frame_h speed frame_id t results s log).2.1,
      e ∈ log ∨
      ∀ d ∈ e.potholes, ∃ tid, d.pothole_id = some tid
        ∧ ((detect_frame_with_roi frame_h speed frame_id t results s
            log).1.confirmed.lookup tid).isSome = true := by
  have hacc : DetInv (results.foldl
      (processBatch frame_id t (pyTrunc ((frame_h : ℚ)
        * (1 - (get_adaptive_params speed).roi_fraction)))) (s, [], 0, 0)) := by
    refine foldl_preserve
      (fun a r ha => processBatch_inv _ _ _ a r ha) results _ ?_
    intro d hd
    simp at hd
  unfold detect_frame_with_roi
  dsimp only
  intro e he
  split at he
  · exact .inl he
  · rcases mem_appendFrameLog he with hold | hnew
    · exact .inl hold
    · subst hnew
      exact .inr fun d hd => hacc d hd


/-- C8 witness: a frame in which a third co-temporal sighting confirms
track 7 appends a log entry whose only detection carries id 7, and 7 is
confirmed in the resulting state. -/
theorem C8_witness :
    (⟨5, 40, mkRat 13 20, [⟨5, some 7, "pothole", mkRat 1 2, 0, 35, 10, 45, 5, 40, 100⟩]⟩
        : FrameLogEntry) ∈ ([] : List FrameLogEntry)
    ∨ ∀ d ∈ (⟨5, 40, mkRat 13 20,
          [⟨5, some 7, "pothole", mkRat 1 2, 0, 35, 10, 45, 5, 40, 100⟩]⟩
        : FrameLogEntry).potholes,
        ∃ tid, d.pothole_id = some tid
          ∧ ((detect_frame_with_roi 100 40 5 (mkRat 1 5)
              [.tracked [⟨0, 0, 10, 10, 7, mkRat 1 2⟩]]
              ⟨[(7, [0, mkRat 1 10])], []⟩ []).1.confirmed.lookup tid).isSome = true :=
  C8_frame_log 100 40 5 (mkRat 1 5) [.tracked [⟨0, 0, 10, 10, 7, mkRat 1 2⟩]]
    ⟨[(7, [0, mkRat 1 10])], []⟩ [] _ (by with_unfolding_all decide)

/-- C10: a tracked detection increments current_frame_potholes exactly
when its track id is in the confirmed map just after its observe call
(a tracked-but-unconfirmed sighting contributes 0 and stores nothing),
an untracked detection increments it unconditionally while storing
nothing, and per sampled frame total_detections grows by the frame's
current_frame_potholes. -/
theorem C10_detection_counting :
    (∀ (frame_id : ℕ) (t : ℚ) (roi : ℤ) (acc : FrameAcc) (b : TrackedBox),
      (processTrackedBox frame_id t roi acc b).2.2.1
        = acc.2.2.1 +
          (if ((observeTrack acc.1 b.track_id frame_id t b.conf).1.confirmed.lookup
              b.track_id).isSome = true then 1 else 0)
      ∧ (((observeTrack acc.1 b.track_id frame_id t b.conf).1.confirmed.lookup
            b.track_id).isSome = false →
          (processTrackedBox frame_id t roi acc b).2.1 = acc.2.1))
    ∧ (∀ (acc : FrameAcc) (bu : UntrackedBox),
        processUntrackedBox acc bu = (acc.1, acc.2.1, acc.2.2.1 + 1, acc.2.2.2))
    ∧ (∀ (vid : Video) (speed : ℚ) (s : LoopState) (idx : ℕ),
        (stepFrame vid speed s idx).total_detections
          = if (idx + 1) % FRAME_STEP ≠ 0 then s.total_detections
            else s.total_detections
              + (detect_frame_with_roi vid.height speed (idx + 1)
                  (if 0 < vid.fps then (((idx + 1 : ℕ)) : ℚ) / vid.fps else 0)
                  (vid.detector (idx + 1)) s.ts s.frames_log).2.2.1) := by
  refine ⟨fun frame_id t roi acc b => ?_, fun acc bu => rfl,
    fun vid speed s idx => ?_⟩
  · constructor
    · unfold processTrackedBox
      dsimp only
      split
      · rfl
      · simp
    · intro hmem
      unfold processTrackedBox
      dsimp only
      rw [if_neg (by rw [hmem]; exact fun h => nomatch h)]
  · unfold stepFrame
    dsimp only
    split
    · rfl
    · split <;> rfl

/-- C10 witness: a first sighting of track 5 (not yet confirmed) stores
nothing, and an untracked sighting increments the count from 0 to 1
while storing nothing. -/
theorem C10_witness :
    (processTrackedBox 1 0 0 (initTrackerState, [], 0, 0) ⟨0, 0, 1, 1, 5, 1⟩).2.1 = []
    ∧ processUntrackedBox (initTrackerState, [], 0, 0) ⟨0, 0, 1, 1, 1⟩
        = (initTrackerState, [], 1, 0) :=
  ⟨(C10_detection_counting.1 1 0 0 (initTrackerState, [], 0, 0) ⟨0, 0, 1, 1, 5, 1⟩).2
      (by with_unfolding_all decide),
   C10_detection_counting.2.1 (initTrackerState, [], 0, 0) ⟨0, 0, 1, 1, 1⟩⟩


/-- A key that lookup does not find is not among the stored keys. -/
lemma lookup_none_not_mem {α : Type} {l : List (ℕ × α)} {k : ℕ}
    (h : l.lookup k = none) : k ∉ l.map Prod.fst := by
  induction l with
  | nil => simp
  | cons a l ih =>
      rw [List.lookup] at h
      cases hk : (k == a.1) with
      | true => rw [hk] at h; exact absurd h (by simp)
      | false =>
          rw [hk] at h
          simp only [List.map_cons, List.mem_cons]
          rintro (h1 | h1)
          · exact absurd (beq_iff_eq.mpr h1) (by rw [hk]; exact Bool.false_ne_true)
          · exact ih h h1

/-- observeTrack preserves key uniqueness of confirmed_potholes: a new
record is only inserted for a key that is not yet present. -/
lemma observeTrack_keys_nodup (s : TrackerState) (tid frame : ℕ) (t conf : ℚ)
    (h : (s.confirmed.map Prod.fst).Nodup) :
    ((observeTrack s tid frame t conf).1.confirmed.map Prod.fst).Nodup := by
  unfold observeTrack
  dsimp only
  split
  · rename_i hcond
    have hnone : s.confirmed.lookup tid = none := by
      by_contra hne
      have hs : (s.confirmed.lookup tid).isSome = true :=
        Option.ne_none_iff_isSome.mp hne
      simp [hs] at hcond
    rw [List.map_append]
    show (List.map Prod.fst s.confirmed ++ [tid]).Nodup
    rw [List.nodup_append]
    refine ⟨h, List.nodup_singleton _, ?_⟩
    rw [List.disjoint_singleton]
    exact lookup_none_not_mem hnone
  · exact h

/-- The tracker-state component of detect_frame_with_roi is the one of
its per-batch fold. -/
lemma detect_frame_fst (frame_h : ℕ) (speed : ℚ) (frame_id : ℕ) (t : ℚ)
    (results : List TrackResult) (s : TrackerState) (log : List FrameLogEntry) :
    (detect_frame_with_roi frame_h speed frame_id t results s log).1
      = (results.foldl (processBatch frame_id t (pyTrunc ((frame_h : ℚ)
          * (1 - (get_adaptive_params speed).roi_fraction)))) (s, [], 0, 0)).1 :=
  rfl

/-- Key uniqueness of confirmed_potholes is preserved by every frame. -/
lemma detect_keys_nodup (frame_h : ℕ) (speed : ℚ) (frame_id : ℕ) (t : ℚ)
    (results : List TrackResult) (s : TrackerState) (log : List FrameLogEntry)
    (h : (s.confirmed.map Prod.fst).Nodup) :
    ((detect_frame_with_roi frame_h speed frame_id t results s
        log).1.confirmed.map Prod.fst).Nodup := by
  rw [detect_frame_fst]
  refine foldl_preserve (P := fun acc : FrameAcc =>
    (acc.1.confirmed.map Prod.fst).Nodup) (fun acc r ha => ?_) results _ h
  cases r with
  | tracked boxes =>
      show ((boxes.foldl (processTrackedBox frame_id t (pyTrunc ((frame_h : ℚ)
        * (1 - (get_adaptive_params speed).roi_fraction)))) acc).1.confirmed.map
          Prod.fst).Nodup
      refine foldl_preserve (P := fun acc : FrameAcc =>
        (acc.1.confirmed.map Prod.fst).Nodup) (fun a b hb => ?_) boxes acc ha
      show (((processTrackedBox frame_id t (pyTrunc ((frame_h : ℚ)
        * (1 - (get_adaptive_params speed).roi_fraction))) a b).1.confirmed).map
          Prod.fst).Nodup
      rw [processTrackedBox_fst]
      exact observeTrack_keys_nodup _ _ _ _ _ hb
  | untracked boxes =>
      show ((boxes.foldl processUntrackedBox acc).1.confirmed.map Prod.fst).Nodup
      exact foldl_preserve (P := fun acc : FrameAcc =>
        (acc.1.confirmed.map Prod.fst).Nodup) (f := processUntrackedBox)
        (fun a b hb => hb) boxes acc ha

/-- Key uniqueness of confirmed_potholes is preserved by the loop. -/
lemma stepFrame_keys_nodup (vid : Video) (speed : ℚ) (s : LoopState) (idx : ℕ)
    (h : (s.ts.confirmed.map Prod.fst).Nodup) :
    ((stepFrame vid speed s idx).ts.confirmed.map Prod.fst).Nodup := by
  unfold stepFrame
  dsimp only
  split
  · exact h
  · split
    · exact detect_keys_nodup _ _ _ _ _ _ s.frames_log h
    · exact detect_keys_nodup _ _ _ _ _ _ s.frames_log h

/-- The sorted pothole_list is sorted by first_detected_frame. -/
lemma buildPotholeList_sorted (c : List (ℕ × PotholeInfo)) :
    List.Pairwise (fun a b : PotholeRecord =>
      a.first_detected_frame ≤ b.first_detected_frame) (buildPotholeList c) := by
  unfold buildPotholeList
  have h := @List.sorted_mergeSort PotholeRecord
    (fun a b =>
      decide (a.first_detected_frame ≤ b.first_detected_frame))
    (fun a b c hab hbc => decide_eq_true
      (le_trans (of_decide_eq_true hab) (of_decide_eq_true hbc)))
    (fun a b => by
      rcases le_total a.first_detected_frame b.first_detected_frame with h | h
      · simp [h]
      · simp [h])
    (c.map potholeRecordOf)
  exact h.imp fun hab => of_decide_eq_true hab

/-- Sorting permutes, so key uniqueness carries over to the record ids. -/
lemma buildPotholeList_ids_nodup (c : List (ℕ × PotholeInfo))
    (h : (c.map Prod.fst).Nodup) :
    ((buildPotholeList c).map fun p => p.pothole_id).Nodup := by
  have hperm : ((buildPotholeList c).map fun p => p.pothole_id).Perm
      ((c.map potholeRecordOf).map fun p => p.pothole_id) :=
    (List.mergeSort_perm _ _).map _
  have heq : ((c.map potholeRecordOf).map fun p => p.pothole_id)
      = c.map Prod.fst := by
    rw [List.map_map]
    rfl
  rw [heq] at hperm
  exact hperm.nodup_iff.mpr h

/-- C6: in every produced Report the pothole_list is sorted ascending
by first_detected_frame and contains no two entries with the same
pothole id. -/
theorem C6_report_sorted_nodup (cap : Option Video) (video_id : String)
    (speed : ℚ) (rep : Report)
    (h : (process_video_blocking cap video_id speed).report = some rep) :
    List.Pairwise (fun a b : PotholeRecord =>
      a.first_detected_frame ≤ b.first_detected_frame) rep.pothole_list
    ∧ (rep.pothole_list.map fun p => p.pothole_id).Nodup := by
  cases cap with
  | none => exact absurd h (by simp [process_video_blocking])
  | some vid =>
      have hkeys : ((((List.range vid.total_frames).foldl
          (stepFrame vid speed) (initLoopState
            ([WsEvent.statusMsg "processing" 0 "Loading model..."] ++
             [.statusMsg "processing" 5
               s!"Model loaded, processing every {FRAME_STEP}th frame..."]))).ts.confirmed.map
          Prod.fst)).Nodup := by
        refine foldl_preserve (P := fun s : LoopState =>
          (s.ts.confirmed.map Prod.fst).Nodup)
          (fun s idx hs => stepFrame_keys_nodup vid speed s idx hs) _ _ ?_
        simp [initLoopState, initTrackerState]
      simp only [process_video_blocking, successResult, Option.some.injEq] at h
      subst h
      exact ⟨buildPotholeList_sorted _, buildPotholeList_ids_nodup _ hkeys⟩

/-- C6 witness: the report of a small completed run (one confirmed
pothole) has a sorted pothole_list with distinct ids. -/
theorem C6_witness :
    List.Pairwise (fun a b : PotholeRecord =>
      a.first_detected_frame ≤ b.first_detected_frame)
      (((process_video_blocking (some wvid) "w" 10).report.get
        (by with_unfolding_all decide)).pothole_list)
    ∧ ((((process_video_blocking (some wvid) "w" 10).report.get
        (by with_unfolding_all decide)).pothole_list).map
        fun p => p.pothole_id).Nodup :=
  C6_report_sorted_nodup (some wvid) "w" 10 _ (Option.some_get _).symm


/-! ### Progress arithmetic -/

lemma pyTrunc_eq_floor {q : ℚ} (h : 0 ≤ q) : pyTrunc q = ⌊q⌋ :=
  if_neg (not_lt.mpr h)

lemma progAt_ge (tf pf : ℕ) : 5 ≤ progAt tf pf := by
  unfold progAt
  have h0 : (0 : ℚ) ≤ (pf : ℚ) / ((tf : ℚ) / (FRAME_STEP : ℚ)) * 95 := by positivity
  have h1 : 0 ≤ pyTrunc ((pf : ℚ) / ((tf : ℚ) / (FRAME_STEP : ℚ)) * 95) := by
    rw [pyTrunc_eq_floor h0]
    exact Int.floor_nonneg.mpr h0
  omega

lemma progAt_mono (tf : ℕ) {pf pf' : ℕ} (h : pf ≤ pf') :
    progAt tf pf ≤ progAt tf pf' := by
  unfold progAt
  have hle : (pf : ℚ) / ((tf : ℚ) / (FRAME_STEP : ℚ)) * 95
      ≤ (pf' : ℚ) / ((tf : ℚ) / (FRAME_STEP : ℚ)) * 95 := by
    rw [div_eq_mul_inv, div_eq_mul_inv]
    have hc : (0 : ℚ) ≤ (((tf : ℚ) * (FRAME_STEP : ℚ)⁻¹))⁻¹ := by positivity
    exact mul_le_mul_of_nonneg_right
      (mul_le_mul_of_nonneg_right (Nat.cast_le.mpr h) hc) (by norm_num)
  rw [pyTrunc_eq_floor (by positivity), pyTrunc_eq_floor (by positivity)]
  have := Int.floor_mono hle
  omega

lemma progAt_le_100 (tf pf : ℕ) (h : (pf : ℚ) ≤ (tf : ℚ) / (FRAME_STEP : ℚ)) :
    progAt tf pf ≤ 100 := by
  unfold progAt
  have hx : (pf : ℚ) / ((tf : ℚ) / (FRAME_STEP : ℚ)) * 95 ≤ 95 := by
    rcases eq_or_lt_of_le (show (0 : ℚ) ≤ (tf : ℚ) / (FRAME_STEP : ℚ) by positivity)
      with hc | hc
    · rw [← hc, div_zero, zero_mul]
      norm_num
    · calc (pf : ℚ) / ((tf : ℚ) / (FRAME_STEP : ℚ)) * 95
          ≤ 1 * 95 := mul_le_mul_of_nonneg_right ((div_le_one hc).mpr h) (by norm_num)
        _ = 95 := one_mul _
  rw [pyTrunc_eq_floor (by positivity)]
  have h2 : ⌊(pf : ℚ) / ((tf : ℚ) / (FRAME_STEP : ℚ)) * 95⌋ ≤ 95 := by
    have h3 := Int.floor_mono hx
    simpa using h3
  omega

/-! ### The loop invariant for progress -/

lemma progressValues_append (l₁ l₂ : List WsEvent) :
    progressValues (l₁ ++ l₂) = progressValues l₁ ++ progressValues l₂ :=
  List.filterMap_append l₁ l₂ eventProgress

lemma chain'_concat_of_le {l : List ℤ} {a : ℤ} (hl : l.Chain' (· ≤ ·))
    (h : ∀ x ∈ l, x ≤ a) : (l ++ [a]).Chain' (· ≤ ·) := by
  rw [List.chain'_append]
  refine ⟨hl, List.chain'_singleton a, fun x hx y hy => ?_⟩
  simp only [List.head?_cons, Option.mem_def, Option.some.injEq] at hy
  subst hy
  exact h x (List.mem_of_mem_getLast? hx)

lemma stepFrame_inv (vid : Video) (speed : ℚ) (s : LoopState) (idx : ℕ)
    (h : LoopInv vid.total_frames s) :
    LoopInv vid.total_frames (stepFrame vid speed s idx)
    ∧ (stepFrame vid speed s idx).processed_frame_count
        = s.processed_frame_count
          + (if (idx + 1) % FRAME_STEP = 0 then 1 else 0) := by
  obtain ⟨hA, hB, hC, hD, hE, hF⟩ := h
  unfold stepFrame
  dsimp only
  split
  · exact ⟨⟨hA, hB, hC, hD, hE, hF⟩, by omega⟩
  · rename_i hskip
    have hsam : (idx + 1) % FRAME_STEP = 0 := not_ne_iff.mp hskip
    split
    · rename_i hemit
      have hp5 : 5 ≤ progAt vid.total_frames (s.processed_frame_count + 1) :=
        progAt_ge _ _
      have hlastp : s.last_progress
          ≤ progAt vid.total_frames (s.processed_frame_count + 1) := by omega
      have hmaxp : max 5 s.last_progress
          ≤ progAt vid.total_frames (s.processed_frame_count + 1) :=
        max_le hp5 hlastp
      refine ⟨?_, by dsimp only⟩
      unfold LoopInv
      dsimp only
      refine ⟨?_, ?_, ?_, ?_, by omega, le_refl _⟩
      · rw [progressValues_append]
        exact chain'_concat_of_le hA fun x hx => le_trans (hB x hx) hmaxp
      · rw [progressValues_append]
        intro x hx
        rcases List.mem_append.mp hx with hx | hx
        · exact le_trans (le_trans (hB x hx) hmaxp) (le_max_right 5 _)
        · rw [List.mem_singleton.mp hx]
          exact le_max_right 5 _
      · exact chain'_concat_of_le hC fun x hx => le_trans (hD x hx) hmaxp
      · intro x hx
        rcases List.mem_append.mp hx with hx | hx
        · exact le_trans (le_trans (hD x hx) hmaxp) (le_max_right 5 _)
        · rw [List.mem_singleton.mp hx]
          exact le_max_right 5 _
    · refine ⟨⟨hA, hB, hC, hD, hE, ?_⟩, by dsimp only⟩
      exact le_trans hF (progAt_mono _ (Nat.le_succ _))


lemma loop_inv (vid : Video) (speed : ℚ) (ev1 : List WsEvent)
    (h0 : LoopInv vid.total_frames (initLoopState ev1)) (n : ℕ) :
    LoopInv vid.total_frames
      ((List.range n).foldl (stepFrame vid speed) (initLoopState ev1))
    ∧ ((List.range n).foldl (stepFrame vid speed)
        (initLoopState ev1)).processed_frame_count = n / FRAME_STEP := by
  induction n with
  | zero => exact ⟨h0, rfl⟩
  | succ n ih =>
      obtain ⟨hinv, hpf⟩ := ih
      obtain ⟨hinv2, hpf2⟩ := stepFrame_inv vid speed _ n hinv
      rw [List.range_succ, List.foldl_append, List.foldl_cons, List.foldl_nil]
      refine ⟨hinv2, ?_⟩
      rw [hpf2, hpf]
      have h2 : FRAME_STEP = 2 := rfl
      rw [h2]
      by_cases hc : (n + 1) % 2 = 0
      · rw [if_pos hc]
        omega
      · rw [if_neg hc]
        omega

/-- C2: for every job, the progress values carried by the event stream
and the progress values written to the job status are monotonically
non-decreasing, and on successful completion both end at exactly 100. -/
theorem C2_progress_monotone (cap : Option Video) (video_id : String) (speed : ℚ) :
    (progressValues (process_video_blocking cap video_id speed).events).Chain' (· ≤ ·)
    ∧ (process_video_blocking cap video_id speed).status_writes.Chain' (· ≤ ·)
    ∧ ((process_video_blocking cap video_id speed).status = "completed" →
        (progressValues (process_video_blocking cap video_id speed).events).getLast?
            = some 100
        ∧ (process_video_blocking cap video_id speed).status_writes.getLast?
            = some 100) := by
  cases cap with
  | none =>
      refine ⟨?_, ?_, fun hst => ?_⟩
      · exact List.chain'_singleton (0 : ℤ)
      · show ([0, 0] : List ℤ).Chain' (· ≤ ·)
        exact List.chain'_cons.mpr ⟨le_refl 0, List.chain'_singleton 0⟩
      · have : ("error" : String) = "completed" := hst
        simp at this
  | some vid =>
      have h0 : LoopInv vid.total_frames (initLoopState
          ([WsEvent.statusMsg "processing" 0 "Loading model..."] ++
           [.statusMsg "processing" 5
             s!"Model loaded, processing every {FRAME_STEP}th frame..."])) := by
        unfold LoopInv initLoopState
        dsimp only
        refine ⟨?_, ?_, List.chain'_singleton 0, ?_, le_refl 0, ?_⟩
        · show ([0, 5] : List ℤ).Chain' (· ≤ ·)
          exact List.chain'_cons.mpr ⟨by omega, List.chain'_singleton 5⟩
        · intro x hx
          have hx2 : x = 0 ∨ x = 5 := by
            have : x ∈ ([0, 5] : List ℤ) := hx
            simpa using this
          rcases hx2 with rfl | rfl <;> omega
        · intro x hx
          have hx2 : x = 0 := by
            have : x ∈ ([0] : List ℤ) := hx
            simpa using this
          omega
        · exact le_trans (by omega : (0 : ℤ) ≤ 5) (progAt_ge _ _)
      obtain ⟨hinv, hpf⟩ := loop_inv vid speed _ h0 vid.total_frames
      obtain ⟨hA, hB, hC, hD, hE, hF⟩ := hinv
      have hpfle : ((vid.total_frames / FRAME_STEP : ℕ) : ℚ)
          ≤ (vid.total_frames : ℚ) / (FRAME_STEP : ℚ) := Nat.cast_div_le
      have h100 : progAt vid.total_frames (vid.total_frames / FRAME_STEP) ≤ 100 :=
        progAt_le_100 _ _ hpfle
      rw [hpf] at hF
      have hres : process_video_blocking (some vid) video_id speed
          = successResult vid video_id speed ((List.range vid.total_frames).foldl
              (stepFrame vid speed) (initLoopState
                ([WsEvent.statusMsg "processing" 0 "Loading model..."] ++
                 [.statusMsg "processing" 5
                   s!"Model loaded, processing every {FRAME_STEP}th frame..."]))) := rfl
      rw [hres]
      unfold successResult
      dsimp only
      refine ⟨?_, ?_, fun _ => ⟨?_, ?_⟩⟩
      · rw [progressValues_append]
        refine chain'_concat_of_le hA fun x hx => ?_
        have h1 := hB x hx
        omega
      · refine chain'_concat_of_le hC fun x hx => ?_
        have h1 := hD x hx
        omega
      · rw [progressValues_append]
        exact List.getLast?_concat _
      · exact List.getLast?_concat _


/-- C2 witness: a small completed run reports final progress exactly
100 in both the event stream and the status record. -/
theorem C2_witness :
    (progressValues (process_video_blocking (some wvid) "w" 10).events).getLast?
        = some 100
    ∧ (process_video_blocking (some wvid) "w" 10).status_writes.getLast? = some 100 :=
  (C2_progress_monotone (some wvid) "w" 10).2.2 rfl


/-! ### The single-track projection (claim C1) -/

lemma lookup_append_none {α : Type} {l₁ : List (ℕ × α)} (l₂ : List (ℕ × α)) {k : ℕ}
    (h : l₁.lookup k = none) : (l₁ ++ l₂).lookup k = l₂.lookup k := by
  induction l₁ with
  | nil => rfl
  | cons a l ih =>
      rw [List.lookup] at h
      rw [List.cons_append, List.lookup]
      cases hk : (k == a.1) with
      | true => simp [hk] at h
      | false =>
          simp only [hk]
          exact ih (by simpa [hk] using h)

lemma lookup_map_replace {tr : List (ℕ × List ℚ)} {tid : ℕ} (v : List ℚ)
    (h : (tr.lookup tid).isSome = true) :
    (tr.map fun p => if p.1 = tid then (tid, v) else p).lookup tid = some v := by
  induction tr with
  | nil => simp [List.lookup] at h
  | cons a l ih =>
      rw [List.map_cons]
      by_cases hk : a.1 = tid
      · rw [if_pos hk]
        simp [List.lookup]
      · rw [if_neg hk]
        rw [List.lookup]
        have hbeq : (tid == a.1) = false := beq_eq_false_iff_ne.mpr fun he => hk he.symm
        simp only [hbeq]
        refine ih ?_
        rw [List.lookup] at h
        simpa [hbeq] using h

lemma trackerGet_trackerSet (tr : List (ℕ × List ℚ)) (tid : ℕ) (v : List ℚ) :
    trackerGet (trackerSet tr tid v) tid = v := by
  unfold trackerGet trackerSet
  split
  · rename_i h
    rw [lookup_map_replace v h]
    rfl
  · rename_i h
    rw [lookup_append_none _ (Option.not_isSome_iff_eq_none.mp h)]
    simp [List.lookup]

/-- One observeTrack call, seen through the single-track view. -/
lemma observeTrack_single (s : TrackerState) (tid frame : ℕ) (t conf : ℚ) :
    trackerGet (observeTrack s tid frame t conf).1.tracker tid
        = dequePush (trackerGet s.tracker tid) t
    ∧ ((observeTrack s tid frame t conf).1.confirmed.lookup tid).isSome
        = ((s.confirmed.lookup tid).isSome
            || decide (MIN_DETECTION_FRAMES ≤
                (recentOf (dequePush (trackerGet s.tracker tid) t) t).length)) := by
  unfold observeTrack
  dsimp only
  refine ⟨trackerGet_trackerSet _ _ _, ?_⟩
  cases hb : (s.confirmed.lookup tid).isSome with
  | true =>
      rw [if_neg (by simp [hb])]
      simp [hb]
  | false =>
      have hnone : s.confirmed.lookup tid = none :=
        Option.not_isSome_iff_eq_none.mp (by simp [hb])
      cases hc : decide (MIN_DETECTION_FRAMES ≤
          (recentOf (dequePush (trackerGet s.tracker tid) t) t).length) with
      | true =>
          rw [if_pos (by simp [hb, hc])]
          rw [lookup_append_none _ hnone]
          simp [List.lookup]
      | false =>
          rw [if_neg (by simp [hc])]
          simp [hb]

/-- Folding observe calls on one track id projects to the single-track
view. -/
lemma runObservesOn_single (tid : ℕ) (obs : List (ℕ × ℚ × ℚ)) :
    ∀ (s : TrackerState) (p : List ℚ × Bool),
      trackerGet s.tracker tid = p.1 →
      (s.confirmed.lookup tid).isSome = p.2 →
      trackerGet (runObservesOn tid obs s).tracker tid
          = (List.foldl trackStep p (obs.map fun o => o.2.1)).1
      ∧ ((runObservesOn tid obs s).confirmed.lookup tid).isSome
          = (List.foldl trackStep p (obs.map fun o => o.2.1)).2 := by
  induction obs with
  | nil => exact fun s p h1 h2 => ⟨h1, h2⟩
  | cons o rest ih =>
      intro s p h1 h2
      have hstep := observeTrack_single s tid o.1 o.2.1 o.2.2
      refine ih _ (trackStep p o.2.1) ?_ ?_
      · rw [hstep.1, h1]
        rfl
      · rw [hstep.2, h1, h2]
        rfl


/-- The single-track confirmation flag holds exactly when some prefix
step reached MIN_DETECTION_FRAMES recent stored timestamps. -/
lemma runTrack_flag (ts : List ℚ) :
    (runTrack ts).2 = true ↔
      ∃ j, j < ts.length ∧ MIN_DETECTION_FRAMES ≤
        ((runTrack (ts.take (j + 1))).1.filter fun x =>
          decide (ts.getD j 0 - x ≤ DETECTION_TIME_WINDOW)).length := by
  induction ts using List.reverseRecOn with
  | nil => simp [runTrack]
  | append_singleton ts t ih =>
      have hrun : runTrack (ts ++ [t]) = trackStep (runTrack ts) t := by
        unfold runTrack
        rw [List.foldl_append]
        rfl
      have htake1 : ∀ j, j < ts.length → (ts ++ [t]).take (j + 1) = ts.take (j + 1) :=
        fun j hj => List.take_append_of_le_length (by omega)
      have hgetD1 : ∀ j, j < ts.length → (ts ++ [t]).getD j 0 = ts.getD j 0 :=
        fun j hj => List.getD_append _ _ _ _ hj
      have htake2 : (ts ++ [t]).take (ts.length + 1) = ts ++ [t] :=
        List.take_of_length_le (by simp)
      have hgetD2 : (ts ++ [t]).getD ts.length 0 = t := by
        rw [List.getD_eq_getElem _ _ (by simp)]
        exact List.getElem_concat_length _ _ _ rfl _
      constructor
      · intro h
        rw [hrun] at h
        have h2 : (runTrack ts).2 = true
            ∨ decide (MIN_DETECTION_FRAMES ≤
                (recentOf (dequePush (runTrack ts).1 t) t).length) = true := by
          simpa [trackStep, Bool.or_eq_true] using h
        rcases h2 with h2 | h2
        · obtain ⟨j, hj, hcnt⟩ := ih.mp h2
          refine ⟨j, by simp; omega, ?_⟩
          rw [htake1 j hj, hgetD1 j hj]
          exact hcnt
        · refine ⟨ts.length, by simp, ?_⟩
          rw [htake2, hgetD2, hrun]
          exact of_decide_eq_true h2
      · rintro ⟨j, hj, hcnt⟩
        rw [hrun]
        have hj2 : j < ts.length + 1 := by
          simpa using hj
        rcases Nat.lt_succ_iff_lt_or_eq.mp hj2 with hjl | hje
        · rw [htake1 j hjl, hgetD1 j hjl] at hcnt
          have hflag := ih.mpr ⟨j, hjl, hcnt⟩
          show ((runTrack ts).2 || _) = true
          rw [hflag]
          rfl
        · subst hje
          rw [htake2, hgetD2, hrun] at hcnt
          have hdec : decide (MIN_DETECTION_FRAMES ≤
              (recentOf (dequePush (runTrack ts).1 t) t).length) = true :=
            decide_eq_true hcnt
          show ((runTrack ts).2 || decide _) = true
          rw [hdec]
          exact Bool.or_true _

/-- Every stored single-track timestamp came from the observed times. -/
lemma foldl_trackStep_hist_mem :
    ∀ (ts : List ℚ) (p : List ℚ × Bool) (x : ℚ),
      x ∈ (List.foldl trackStep p ts).1 → x ∈ p.1 ∨ x ∈ ts := by
  intro ts
  induction ts with
  | nil => exact fun p x h => .inl h
  | cons t ts ih =>
      intro p x h
      rcases ih (trackStep p t) x h with h1 | h1
      · have h2 : x ∈ dequePush p.1 t := h1
        unfold dequePush at h2
        split at h2
        · rcases List.mem_append.mp h2 with h3 | h3
          · exact .inl h3
          · refine .inr ?_
            rw [List.mem_singleton.mp h3]
            exact List.mem_cons_self t ts
        · rcases List.mem_append.mp h2 with h3 | h3
          · exact .inl (List.mem_of_mem_drop h3)
          · refine .inr ?_
            rw [List.mem_singleton.mp h3]
            exact List.mem_cons_self t ts
      · exact .inr (List.mem_cons_of_mem _ h1)

lemma runTrack_hist_mem {ts : List ℚ} {x : ℚ} (h : x ∈ (runTrack ts).1) : x ∈ ts := by
  rcases foldl_trackStep_hist_mem ts ([], false) x h with h1 | h1
  · simp at h1
  · exact h1

/-- In a strictly increasing timestamp list, every element of a prefix
is at most the last element of that prefix. -/
lemma mem_take_le {ts : List ℚ} (hinc : ts.Chain' (· < ·)) {j : ℕ} (hj : j < ts.length)
    {x : ℚ} (hx : x ∈ ts.take (j + 1)) : x ≤ ts.getD j 0 := by
  have hpw : ts.Pairwise (· < ·) := List.chain'_iff_pairwise.mp hinc
  obtain ⟨k, hk, hke⟩ := List.mem_iff_getElem.mp hx
  have hk2 : k < ts.length := by
    rw [List.length_take] at hk
    omega
  have hke2 : ts[k] = x := by
    rw [← hke]
    exact (List.getElem_take ts).symm
  rw [List.getD_eq_getElem _ _ hj]
  have hkj : k ≤ j := by
    rw [List.length_take] at hk
    omega
  rcases lt_or_eq_of_le hkj with hlt | heq
  · have hlt2 := List.pairwise_iff_getElem.mp hpw k j hk2 hj hlt
    rw [hke2] at hlt2
    exact le_of_lt hlt2
  · subst heq
    rw [hke2]


/-- C1: over a sequence of observe calls on one track id with strictly
increasing timestamps, the track is confirmed after the first i calls
exactly when some call j among them saw at least MIN_DETECTION_FRAMES
stored timestamps within DETECTION_TIME_WINDOW of its own timestamp; in
particular the track becomes confirmed at the first such timestamp and
never becomes un-confirmed afterward. -/
theorem C1_track_confirmation (tid : ℕ) (obs : List (ℕ × ℚ × ℚ))
    (hinc : (obs.map fun o => o.2.1).Chain' (· < ·)) :
    ∀ i, i ≤ obs.length →
      (((runObservesOn tid (obs.take i) initTrackerState).confirmed.lookup
          tid).isSome = true
        ↔ ∃ j, j < i ∧ MIN_DETECTION_FRAMES ≤
            ((trackerGet (runObservesOn tid (obs.take (j + 1))
                initTrackerState).tracker tid).filter fun x =>
              decide (|(obs.map fun o => o.2.1).getD j 0 - x|
                ≤ DETECTION_TIME_WINDOW)).length) := by
  intro i hi
  have hlen : (obs.map fun o => o.2.1).length = obs.length := List.length_map _ _
  have hproj := (runObservesOn_single tid (obs.take i) initTrackerState
    ([], false) rfl rfl).2
  rw [List.map_take] at hproj
  rw [hproj]
  show (runTrack ((obs.map fun o => o.2.1).take i)).2 = true ↔ _
  rw [runTrack_flag]
  have hlen_take : ((obs.map fun o => o.2.1).take i).length = i := by
    rw [List.length_take]
    omega
  refine exists_congr fun j => ?_
  rw [hlen_take]
  refine and_congr_right fun hji => ?_
  have hjlen : j < (obs.map fun o => o.2.1).length := by omega
  have hproj2 := (runObservesOn_single tid (obs.take (j + 1)) initTrackerState
    ([], false) rfl rfl).1
  rw [List.map_take] at hproj2
  have htt : ((obs.map fun o => o.2.1).take i).take (j + 1)
      = (obs.map fun o => o.2.1).take (j + 1) := by
    rw [List.take_take]
    congr 1
    omega
  have hgd : ((obs.map fun o => o.2.1).take i).getD j 0
      = (obs.map fun o => o.2.1).getD j 0 := by
    rw [List.getD_eq_getElem _ _ (by rw [List.length_take]; omega),
      List.getD_eq_getElem _ _ hjlen]
    exact List.getElem_take _
  have hfc : ((runTrack ((obs.map fun o => o.2.1).take (j + 1))).1.filter fun x =>
        decide ((obs.map fun o => o.2.1).getD j 0 - x ≤ DETECTION_TIME_WINDOW))
      = ((runTrack ((obs.map fun o => o.2.1).take (j + 1))).1.filter fun x =>
        decide (|(obs.map fun o => o.2.1).getD j 0 - x| ≤ DETECTION_TIME_WINDOW)) := by
    refine List.filter_congr fun x hx => ?_
    have hxm : x ∈ (obs.map fun o => o.2.1).take (j + 1) := runTrack_hist_mem hx
    have hle : x ≤ (obs.map fun o => o.2.1).getD j 0 := mem_take_le hinc hjlen hxm
    rw [decide_eq_decide, abs_of_nonneg (sub_nonneg.mpr hle)]
  rw [htt, hgd, hfc, hproj2]
  unfold runTrack
  exact Iff.rfl

/-- C1 witness: three observations of track 5 at times 0, 1/2, 1 are
all within the window of the third, which confirms the track. -/
theorem C1_witness :
    ((runObservesOn 5 ([(1, mkRat 0 1, mkRat 1 2), (2, mkRat 1 2, mkRat 1 2),
        (3, mkRat 1 1, mkRat 1 2)].take 3)
      initTrackerState).confirmed.lookup 5).isSome = true :=
  (C1_track_confirmation 5
      [(1, mkRat 0 1, mkRat 1 2), (2, mkRat 1 2, mkRat 1 2), (3, mkRat 1 1, mkRat 1 2)]
      (by
        show List.Chain' (· < ·) [mkRat 0 1, mkRat 1 2, mkRat 1 1]
        refine List.chain'_cons.mpr ⟨?_, List.chain'_cons.mpr
          ⟨?_, List.chain'_singleton _⟩⟩
        · with_unfolding_all decide
        · with_unfolding_all decide) 3 (by decide)).mpr
    ⟨2, by omega, by with_unfolding_all decide⟩

end PotholePipeline
